import Mathlib

/-!
Verification of the carta-mcp domain crawler (src/unnamed/part_005, the current
revision of src/web-scraping.ts) against its natural-language specification.

The embedding models:
 - the fetchPageContent helper of scrapeWebPage (part_005 lines 31-65);
 - the listDomainUrls crawler (part_005 lines 174-512): option resolution,
   link normalization, internal/external classification, filtering, adaptive
   priority-path promotion, the batched wave loop, and the final aggregation.

Modelling conventions, each noted where it applies:
 - JavaScript URL objects become explicit records of their components; string
   serialization concatenates the components.
 - The network is a parameter, a function from URL to an optional page
   snapshot; the value none models a fetch failure or a per-page timeout of
   the Promise.race at part_005 lines 337-361 (both paths abandon the item).
 - Wall-clock time is a parameter, a function giving the elapsed milliseconds
   observed at the top of each wave (part_005 line 294).
 - The default exclude/include regex lists (part_005 lines 208-242) are taken
   as parameters, since no claim depends on their contents; the carta path
   pattern (part_005 lines 245-247), which the crawler logic itself consults,
   is modelled concretely as a case-insensitive substring test.
 - Promise.all over one batch (part_005 line 309) runs every callback
   synchronously up to its first await, in array order, before any
   continuation runs; the model therefore processes a wave in two phases:
   phase 1 performs the visited/depth/adaptive gating for each item in batch
   order, phase 2 performs the link processing of the gated items.
 - The while loop is given fuel; every theorem quantifies over the fuel, so
   the proved invariants hold at every wave boundary of the computation.
 - The crawl state carries one ghost field, fetchLog, recording each page
   fetch actually issued together with the depth, the adaptive flag and the
   priority-path snapshot at that moment; no other field reads it.
-/

namespace CartaMcp

/-- Case-insensitive lowering of a string, modelling String.prototype.toLowerCase
for the ASCII strings the crawler manipulates. -/
def lowerStr (s : String) : String := String.mk (s.data.map Char.toLower)

/-- Containment of one character list inside another. -/
def listContains (needle hay : List Char) : Bool :=
  hay.tails.any (fun t => needle.isPrefixOf t)

/-- Substring test, modelling a JavaScript regex alternation of literal words. -/
def containsSub (needle s : String) : Bool := listContains needle.data s.data

/-- Model of String.prototype.startsWith: the second string is a prefix of the first. -/
def strStartsWith (s pre : String) : Bool := pre.data.isPrefixOf s.data

/-- Split a character list at every slash, keeping empty segments, modelling
String.prototype.split with separator "/". -/
def splitSlashes : List Char → List (List Char)
  | [] => [[]]
  | '/' :: rest => [] :: splitSlashes rest
  | c :: rest =>
    match splitSlashes rest with
    | [] => [[c]]
    | seg :: segs => (c :: seg) :: segs

/-- Non-empty path segments, modelling pathname.split('/').filter(Boolean). -/
def pathSegments (s : String) : List String :=
  ((splitSlashes s.data).map (fun l => String.mk l)).filter (fun seg => seg != "")

/-- First path segment or the empty string, modelling aPath[0] || '' at part_005 line 492. -/
def firstSeg (s : String) : String := (pathSegments s).headD ""

/-- Remove every trailing slash, modelling pathname.replace(/\x2f+$/, '') at
part_005 line 373. -/
def stripTrailingSlashes (s : String) : String :=
  String.mk ((s.data.reverse.dropWhile (fun c => c == '/')).reverse)

/-- Cut a trailing extension from a slash-free segment: drop from the first dot
that is followed by at least one character, the leftmost match of the regex
at part_005 line 267 within the last path segment. -/
def cutExt : List Char → List Char
  | [] => []
  | '.' :: rest => if rest.isEmpty then ['.'] else []
  | c :: rest => c :: cutExt rest

/-- Model of pathname.replace with the extension-stripping regex of part_005
line 267: the regex matches from the leftmost dot that has no later slash. -/
def stripExtension (s : String) : String :=
  let r := s.data.reverse
  let seg := r.takeWhile (fun c => c != '/')
  String.mk (s.data.take (s.data.length - seg.length) ++ cutExt seg.reverse)

/-- Strict lexicographic order on character lists by code point, modelling the
JavaScript string comparison operator used by the final sort comparator. -/
def listLt : List Char → List Char → Bool
  | _, [] => false
  | [], _ :: _ => true
  | a :: as, b :: bs =>
    if a.toNat < b.toNat then true
    else if b.toNat < a.toNat then false
    else listLt as bs

/-- Strict string order by code point. -/
def strLtB (a b : String) : Bool := listLt a.data b.data

/-- A parsed URL, modelling the component view of a JavaScript URL object.
Equality of two values models equality of the serialized URL strings. -/
structure Url where
  scheme : String
  hostname : String
  pathname : String
  search : String
  hash : String
deriving DecidableEq

/-- Serialization of a URL, modelling URL.prototype.toString. -/
def urlToString (u : Url) : String :=
  u.scheme ++ "://" ++ u.hostname ++ u.pathname ++ u.search ++ u.hash

/-- Link normalization at part_005 lines 368-374: strip the fragment and the
query, then remove the trailing slashes unless the path is the root. -/
def normalizeUrl (u : Url) : Url :=
  let u' : Url := { u with hash := "", search := "" }
  if u'.pathname ≠ "/" ∧ u'.pathname.data.getLast? = some '/' then
    { u' with pathname := stripTrailingSlashes u'.pathname }
  else u'

/-- An outbound link of a page: the already-resolved absolute URL and the
anchor text (part_005 lines 104-119 keep only links whose href parses). -/
structure Link where
  url : Url
  text : String
deriving DecidableEq

/-- The part of a page snapshot the crawler consumes: its outbound links. -/
structure Page where
  links : List Link
deriving DecidableEq

/-- Carta path detection, modelling the single regex (carta|menu|food|comida)/i
of cartaPathPatterns at part_005 lines 245-247. -/
def cartaTest (s : String) : Bool :=
  let l := lowerStr s
  containsSub "carta" l || containsSub "menu" l || containsSub "food" l ||
    containsSub "comida" l

/-- Test of cartaPathPatterns.some at part_005 lines 415 and 432. -/
def isCartaPath (s : String) : Bool := cartaTest s

/-- The filterMode option values of part_005 line 182. -/
inductive FilterMode
  | none
  | menu
  | custom
deriving DecidableEq

/-- The caller-supplied options of listDomainUrls (part_005 lines 176-187);
a value none models an absent field. The pattern options are factored out as
direct parameters of the crawler, see the header comment. -/
structure CrawlOptions where
  maxDepth : Option Nat := Option.none
  maxUrls : Option Nat := Option.none
  includeExternalLinks : Option Bool := Option.none
  timeoutMs : Option Nat := Option.none
  batchSize : Option Nat := Option.none
  filterMode : Option FilterMode := Option.none
  adaptiveSearch : Option Bool := Option.none
  exactUrl : Option Bool := Option.none
deriving DecidableEq

/-- Resolution of a numeric option with the JavaScript operator ||, as in
part_005 lines 198-202: an absent field and the falsy value 0 both yield the
built-in default. -/
def resolveNat (o : Option Nat) (d : Nat) : Nat :=
  match o with
  | Option.some n => if n = 0 then d else n
  | Option.none => d

/-- The resolved configuration of one crawl, together with the pattern testers
and the parsed seed URL. baseExact models part_005 lines 266-268. -/
structure CrawlConfig where
  maxDepth : Nat
  maxUrls : Nat
  includeExternalLinks : Bool
  timeoutMs : Nat
  batchSize : Nat
  filterMode : FilterMode
  adaptiveSearch : Bool
  exactUrl : Bool
  excludePatterns : List (String → Bool)
  includePatterns : List (String → Bool)
  base : Url

/-- Option resolution of part_005 lines 197-205 plus the baseUrl parse of
lines 259-264 (the parse succeeds; an unparsable seed is the InvalidInput
failure, outside the crawl proper). -/
def mkConfig (opts : CrawlOptions) (excludePatterns includePatterns : List (String → Bool))
    (seed : Url) : CrawlConfig :=
  { maxDepth := resolveNat opts.maxDepth 2
    maxUrls := resolveNat opts.maxUrls 50
    includeExternalLinks := opts.includeExternalLinks.getD false
    timeoutMs := resolveNat opts.timeoutMs 25000
    batchSize := resolveNat opts.batchSize 5
    filterMode := opts.filterMode.getD FilterMode.menu
    adaptiveSearch := opts.adaptiveSearch.getD true
    exactUrl := opts.exactUrl.getD false
    excludePatterns := excludePatterns
    includePatterns := includePatterns
    base := seed }

/-- The origin-plus-extensionless-path prefix of part_005 lines 266-268. -/
def baseExact (cfg : CrawlConfig) : String :=
  cfg.base.scheme ++ "://" ++ cfg.base.hostname ++ stripExtension cfg.base.pathname

/-- A frontier queue entry, part_005 line 275. -/
structure FrontierItem where
  url : Url
  depth : Nat
  noDepthLimit : Bool
deriving DecidableEq

/-- Ghost record of one issued page fetch: the URL and depth of the item and
the adaptiveMode flag and priorityPaths snapshot at the moment the fetch was
issued. -/
structure FetchEvent where
  url : Url
  depth : Nat
  adaptive : Bool
  paths : List String
deriving DecidableEq

/-- The mutable crawl state of part_005 lines 270-288, with the ghost field
fetchLog added. Sets are insertion-ordered duplicate-free lists. -/
structure CrawlState where
  found : List Url
  external : List Url
  queue : List FrontierItem
  visited : List Url
  timedOut : Bool
  priorityPaths : List String
  adaptiveMode : Bool
  fetchLog : List FetchEvent
deriving DecidableEq

/-- A frontier item that survived the gates of a wave's phase 1, with the
snapshot data for its fetch event. -/
structure Decided where
  item : FrontierItem
  adaptive : Bool
  paths : List String
deriving DecidableEq

/-- The initial crawl state, part_005 lines 270-288. -/
def initState (seed : Url) : CrawlState :=
  { found := [seed]
    external := []
    queue := [{ url := seed, depth := 0, noDepthLimit := false }]
    visited := []
    timedOut := false
    priorityPaths := []
    adaptiveMode := false
    fetchLog := [] }

/-- Insertion into an insertion-ordered set, modelling Set.prototype.add. -/
def addToSet {α : Type} [DecidableEq α] (l : List α) (a : α) : List α :=
  if a ∈ l then l else l ++ [a]

/-- Outcome of the plain HTTP GET inside fetchPageContent (part_005 lines
38-49): a successful response body, a 404 status, another non-success status,
or a network error (a rejected fetch promise, including its 10-second abort). -/
inductive PlainFetch
  | ok (body : String)
  | notFound
  | badStatus
  | netError
deriving DecidableEq

/-- Result of fetchPageContent: the returned HTML and whether the headless
browser fallback was attempted. -/
structure FetchResult where
  content : String
  usedRendered : Bool
deriving DecidableEq

/-- Embedding of fetchPageContent (part_005 lines 31-65). The parameter plain
is the outcome of the HTTP GET; rendered is the outcome of the Puppeteer
fallback, none modelling a navigation failure (its catch returns the empty
string at line 62). -/
def fetchPageContent (targetUrl : String) (plain : PlainFetch)
    (rendered : Option String) : FetchResult :=
  if strStartsWith targetUrl "mailto:" = true ∨ strStartsWith targetUrl "tel:" = true then
    { content := "", usedRendered := false }
  else
    match plain with
    | PlainFetch.ok body => { content := body, usedRendered := false }
    | PlainFetch.notFound => { content := "", usedRendered := false }
    | PlainFetch.badStatus =>
      match rendered with
      | Option.some c => { content := c, usedRendered := true }
      | Option.none => { content := "", usedRendered := true }
    | PlainFetch.netError =>
      match rendered with
      | Option.some c => { content := c, usedRendered := true }
      | Option.none => { content := "", usedRendered := true }

/-- The filter gate of part_005 lines 381-407: outside mode none, a link is
dropped when an exclude pattern matches the URL string or the lowered path,
or when include patterns exist and none matches the URL string, the lowered
path or the lowered anchor text. -/
def linkFilteredOut (cfg : CrawlConfig) (linkUrl : Url) (linkText : String) : Bool :=
  if cfg.filterMode ≠ FilterMode.none then
    let urlString := urlToString linkUrl
    let urlPath := lowerStr linkUrl.pathname
    if cfg.excludePatterns.any (fun p => p urlString || p urlPath) then true
    else if 0 < cfg.includePatterns.length ∧
        ¬ cfg.includePatterns.any
          (fun p => p urlString || p urlPath || p (lowerStr linkText)) = true then true
    else false
  else false

/-- Priority-path promotion of part_005 lines 411-427: on a depth-0 link with
adaptive search on, when the lowered path matches the carta pattern, register
the first path segment prefixed by a slash. -/
def detectPriority (cfg : CrawlConfig) (depth : Nat) (st : CrawlState) (linkUrl : Url) :
    CrawlState :=
  if cfg.adaptiveSearch = true ∧ depth = 0 then
    let urlPath := lowerStr linkUrl.pathname
    if isCartaPath urlPath = true then
      if 0 < (pathSegments urlPath).length then
        { st with priorityPaths :=
            addToSet st.priorityPaths ("/" ++ (pathSegments urlPath).headD "") }
      else st
    else st
  else st

/-- Collection of a new internal URL, part_005 lines 430-442: when the
normalized URL is new, record it, compute the no-depth-limit promotion and
enqueue it when the depth allows. -/
def addFound (cfg : CrawlConfig) (item : FrontierItem) (st : CrawlState) (linkUrl : Url) :
    CrawlState :=
  if linkUrl ∈ st.found then st
  else
    let nextNoDepthLimit := item.noDepthLimit || isCartaPath linkUrl.pathname
    let st' : CrawlState := { st with found := st.found ++ [linkUrl] }
    if nextNoDepthLimit = true ∨ item.depth + 1 < cfg.maxDepth then
      { st' with queue := st'.queue ++
          [{ url := linkUrl, depth := item.depth + 1, noDepthLimit := nextNoDepthLimit }] }
    else st'

/-- Internal classification of part_005 line 376. -/
def isInternal (cfg : CrawlConfig) (linkUrl : Url) : Bool :=
  if cfg.exactUrl = true then strStartsWith (urlToString linkUrl) (baseExact cfg)
  else linkUrl.hostname == cfg.base.hostname

/-- Processing of one discovered link, part_005 lines 365-450: normalize, then
either handle an internal link (filter, priority detection, collection) or
record an external link when requested. -/
def processLink (cfg : CrawlConfig) (item : FrontierItem) (st : CrawlState) (link : Link) :
    CrawlState :=
  let linkUrl := normalizeUrl link.url
  if isInternal cfg linkUrl = true then
    if linkFilteredOut cfg linkUrl link.text = true then st
    else addFound cfg item (detectPriority cfg item.depth st linkUrl) linkUrl
  else if cfg.includeExternalLinks = true then
    { st with external := addToSet st.external linkUrl }
  else st

/-- Phase 1 of one wave item, the synchronous prefix of the batch callback at
part_005 lines 309-334: skip when visited or beyond the depth limit, mark
visited, then apply the adaptive-mode pruning gate; a surviving item is
recorded for phase 2 with its snapshot. -/
def phase1Step (cfg : CrawlConfig) :
    CrawlState × List Decided → FrontierItem → CrawlState × List Decided
  | (st, ds), it =>
    if it.url ∈ st.visited ∨ (it.noDepthLimit = false ∧ cfg.maxDepth ≤ it.depth) then (st, ds)
    else
      let st' : CrawlState := { st with visited := st.visited ++ [it.url] }
      if cfg.adaptiveSearch = true ∧ st'.adaptiveMode = true ∧ st'.priorityPaths ≠ [] ∧
          (∀ pp ∈ st'.priorityPaths, strStartsWith it.url.pathname pp = false) ∧
          0 < it.depth then
        (st', ds)
      else
        (st', ds ++ [{ item := it, adaptive := st'.adaptiveMode, paths := st'.priorityPaths }])

/-- Ghost fetch event of a gated item. -/
def eventOf (d : Decided) : FetchEvent :=
  { url := d.item.url, depth := d.item.depth, adaptive := d.adaptive, paths := d.paths }

/-- Phase 2 of one wave item, the continuation after the fetch at part_005
lines 336-456: record the fetch in the ghost log, then, when the racing fetch
delivered a page, process its links; a failed or timed-out fetch contributes
nothing (lines 358-361 and 451-455). -/
def phase2Step (cfg : CrawlConfig) (web : Url → Option Page) (st : CrawlState)
    (d : Decided) : CrawlState :=
  let st' : CrawlState := { st with fetchLog := st.fetchLog ++ [eventOf d] }
  match web d.item.url with
  | Option.none => st'
  | Option.some page => page.links.foldl (processLink cfg d.item) st'

/-- One wave, part_005 lines 299-464: dequeue up to batchSize items, run both
phases, then evaluate the one-way adaptive latch (lines 459-464). -/
def waveStep (cfg : CrawlConfig) (web : Url → Option Page) (st : CrawlState) : CrawlState :=
  let batch := st.queue.take cfg.batchSize
  let st0 : CrawlState := { st with queue := st.queue.drop cfg.batchSize }
  let p := batch.foldl (phase1Step cfg) (st0, [])
  let st2 := p.2.foldl (phase2Step cfg web) p.1
  if cfg.adaptiveSearch = true ∧ st2.adaptiveMode = false ∧ (∀ it ∈ batch, 0 < it.depth) ∧
      st2.priorityPaths ≠ [] then
    { st2 with adaptiveMode := true }
  else st2

/-- The crawl loop, part_005 lines 291-470, driven by fuel. The parameter
clock gives the elapsed milliseconds observed at the top of wave k (line 294);
the loop stops on an empty frontier, on reaching maxUrls, on the global
deadline, or when the fuel runs out. -/
def crawlLoop (cfg : CrawlConfig) (web : Url → Option Page) (clock : Nat → Nat) :
    Nat → Nat → CrawlState → CrawlState
  | 0, _, st => st
  | Nat.succ fuel, k, st =>
    if st.queue = [] ∨ cfg.maxUrls ≤ st.found.length ∨ st.timedOut = true then st
    else if cfg.timeoutMs < clock k then { st with timedOut := true }
    else
      let st' := waveStep cfg web st
      if cfg.maxUrls ≤ st'.found.length then st'
      else crawlLoop cfg web clock fuel (k + 1) st'

/-- The sort order of the final comparator, part_005 lines 489-500: primary
key the first non-empty path segment, secondary key the full URL string, both
by the JavaScript string order. -/
def urlLe (a b : Url) : Bool :=
  let ka := firstSeg a.pathname
  let kb := firstSeg b.pathname
  if strLtB ka kb then true
  else if strLtB kb ka then false
  else !(strLtB (urlToString b) (urlToString a))

/-- Propositional form of the final sort order. -/
def urlLeR (a b : Url) : Prop := urlLe a b = true

instance : DecidableRel urlLeR := fun a b => instDecidableEqBool (urlLe a b) true

/-- The crawl result record, part_005 lines 188-196 and 503-511. The
priorityPaths and externalUrls keys, present in the source only when non-empty
or requested, are modelled as lists that are empty in exactly those cases. -/
structure CrawlResult where
  domain : String
  urlsFound : Nat
  urls : List Url
  filteredUrls : List Url
  priorityPaths : List String
  externalUrls : List Url
  timedOut : Bool
deriving DecidableEq

/-- The final aggregation, part_005 lines 472-511: outside mode none re-filter
the found set through the include patterns, sort the filtered list with the
comparator, and assemble the result. -/
def finalizeResult (cfg : CrawlConfig) (st : CrawlState) : CrawlResult :=
  let filtered0 := st.found
  let filtered1 :=
    if cfg.filterMode ≠ FilterMode.none then
      filtered0.filter (fun u =>
        if 0 < cfg.includePatterns.length then
          cfg.includePatterns.any (fun p => p (urlToString u))
        else true)
    else filtered0
  { domain := cfg.base.hostname
    urlsFound := st.found.length
    urls := st.found
    filteredUrls := List.insertionSort urlLeR filtered1
    priorityPaths := st.priorityPaths
    externalUrls := if cfg.includeExternalLinks = true then st.external else []
    timedOut := st.timedOut }

/-- The crawl state reached by listDomainUrls after at most fuel waves. -/
def listDomainUrlsState (opts : CrawlOptions)
    (excludePatterns includePatterns : List (String → Bool)) (web : Url → Option Page)
    (clock : Nat → Nat) (fuel : Nat) (seed : Url) : CrawlState :=
  crawlLoop (mkConfig opts excludePatterns includePatterns seed) web clock fuel 0
    (initState seed)

/-- Embedding of listDomainUrls, part_005 lines 174-512. -/
def listDomainUrls (opts : CrawlOptions)
    (excludePatterns includePatterns : List (String → Bool)) (web : Url → Option Page)
    (clock : Nat → Nat) (fuel : Nat) (seed : Url) : CrawlResult :=
  finalizeResult (mkConfig opts excludePatterns includePatterns seed)
    (listDomainUrlsState opts excludePatterns includePatterns web clock fuel seed)

/-- Concrete seed URL for the worked examples. -/
def exSeed : Url := { scheme := "http", hostname := "e.com", pathname := "/", search := "", hash := "" }

/-- Concrete internal URL with the given path, on the seed's host. -/
def exUrl (p : String) : Url :=
  { scheme := "http", hostname := "e.com", pathname := p, search := "", hash := "" }

/-- A depth-0 page exposing five internal links, the scenario of the maxUrls
claim. -/
def exPage5 : Page :=
  { links := [
      { url := exUrl "/p1", text := "a" }, { url := exUrl "/p2", text := "a" },
      { url := exUrl "/p3", text := "a" }, { url := exUrl "/p4", text := "a" },
      { url := exUrl "/p5", text := "a" }] }

/-- A web in which only the seed resolves, to the five-link page. -/
def exWeb5 : Url → Option Page := fun u => if u = exSeed then Option.some exPage5 else Option.none

/-- Options of the maxUrls scenario: a cap of 2, depth 1, no filtering. -/
def exOpts5 : CrawlOptions :=
  { maxUrls := Option.some 2, maxDepth := Option.some 1, filterMode := Option.some FilterMode.none }

/-- A depth-0 page whose two links arrive in an order the final comparator
inverts. -/
def exPageBA : Page :=
  { links := [{ url := exUrl "/b", text := "b" }, { url := exUrl "/a", text := "a" }] }

/-- A web in which only the seed resolves, to the two-link page. -/
def exWebBA : Url → Option Page := fun u => if u = exSeed then Option.some exPageBA else Option.none

/-- Options selecting filter mode none with all other defaults. -/
def exOptsNone : CrawlOptions := { filterMode := Option.some FilterMode.none }

/-- The depth-0 link of the adaptive-search scenario: a carta-pattern match
under the path /menu/especial. -/
def exMenuLink : Link := { url := exUrl "/menu/especial", text := "carta" }

/-- A depth-0 page exposing the /menu/especial link and an unrelated link. -/
def exPageMenu : Page :=
  { links := [exMenuLink, { url := exUrl "/about", text := "x" }] }

/-- A web for the adaptive-search scenario: the seed lists /menu/especial and
/about, and /menu/especial lists a deeper menu page. -/
def exWebMenu : Url → Option Page := fun u =>
  if u = exSeed then Option.some exPageMenu
  else if u = exUrl "/menu/especial" then
    Option.some { links := [{ url := exUrl "/menu/otros", text := "y" }] }
  else Option.none

/-- Options of the adaptive-search scenario. -/
def exOptsMenu : CrawlOptions :=
  { filterMode := Option.some FilterMode.none, maxDepth := Option.some 3 }

/-- A concrete gated frontier item used to witness the per-page timeout claim. -/
def exDecided : Decided :=
  { item := { url := exUrl "/slow", depth := 1, noDepthLimit := false }, adaptive := false,
    paths := [] }

/-- Specification of one wave's phase 1 relative to the wave-entry state st0:
state fields other than visited are untouched, visited grows by exactly the
fresh batch URLs, and the gated items are pairwise distinct, freshly visited,
carry the wave-entry snapshots, and respect the adaptive pruning gate. -/
def Phase1Spec (_cfg : CrawlConfig) (batch : List FrontierItem) (st0 : CrawlState)
    (p : CrawlState × List Decided) : Prop :=
  p.1.found = st0.found ∧ p.1.queue = st0.queue ∧ p.1.fetchLog = st0.fetchLog ∧
    p.1.priorityPaths = st0.priorityPaths ∧ p.1.adaptiveMode = st0.adaptiveMode ∧
    p.1.external = st0.external ∧ p.1.timedOut = st0.timedOut ∧
    p.1.visited.Nodup ∧
    (∀ u ∈ st0.visited, u ∈ p.1.visited) ∧
    (∀ u ∈ p.1.visited, u ∈ st0.visited ∨ ∃ b ∈ batch, b.url = u) ∧
    (p.2.map (fun d => d.item.url)).Nodup ∧
    (∀ d ∈ p.2, d.item.url ∈ p.1.visited) ∧
    (∀ d ∈ p.2, d.item.url ∉ st0.visited) ∧
    (∀ d ∈ p.2, d.adaptive = st0.adaptiveMode ∧ d.paths = st0.priorityPaths ∧
      (∃ b ∈ batch, d.item = b) ∧
      (d.adaptive = true → 0 < d.item.depth →
        ∃ pp ∈ d.paths, strStartsWith d.item.url.pathname pp = true))

/-- The crawl-state invariant: visited URLs are unique and were found first,
queued URLs were found first, at most one fetch is ever issued per URL, the
adaptive latch implies adaptive search and a non-empty priority set, and every
fetch issued at positive depth in adaptive mode lay under a priority path
registered at fetch time. -/
def Inv (cfg : CrawlConfig) (st : CrawlState) : Prop :=
  st.visited.Nodup ∧
    (st.fetchLog.map (fun e => e.url)).Nodup ∧
    (∀ e ∈ st.fetchLog, e.url ∈ st.visited) ∧
    (∀ u ∈ st.visited, u ∈ st.found) ∧
    (∀ j ∈ st.queue, j.url ∈ st.found) ∧
    (st.adaptiveMode = true → cfg.adaptiveSearch = true) ∧
    (st.adaptiveMode = true → st.priorityPaths ≠ []) ∧
    (∀ e ∈ st.fetchLog, e.adaptive = true → 0 < e.depth →
      ∃ pp ∈ e.paths, strStartsWith e.url.pathname pp = true)

/-! Generic fold helpers. -/

theorem foldl_preserve {σ α : Type _} (P : σ → Prop) (f : σ → α → σ)
    (hf : ∀ s a, P s → P (f s a)) : ∀ (l : List α) (s : σ), P s → P (l.foldl f s) := by
  intro l
  induction l with
  | nil => intro s hs; simpa using hs
  | cons a as ih => intro s hs; exact ih (f s a) (hf s a hs)

theorem foldl_preserve_mem {σ α : Type _} (P : σ → Prop) (f : σ → α → σ) :
    ∀ (l : List α), (∀ s a, a ∈ l → P s → P (f s a)) → ∀ (s : σ), P s → P (l.foldl f s) := by
  intro l
  induction l with
  | nil => intro _ s hs; simpa using hs
  | cons a as ih =>
    intro hf s hs
    exact ih (fun s b hb hsb => hf s b (by simp [hb]) hsb) (f s a) (hf s a (by simp) hs)

theorem foldl_of_mem {σ α : Type _} (P : σ → Prop) (f : σ → α → σ) :
    ∀ (l : List α) (a : α), a ∈ l → (∀ s, P (f s a)) → (∀ s b, P s → P (f s b)) →
      ∀ (s : σ), P (l.foldl f s) := by
  intro l
  induction l with
  | nil => intro a ha; simp at ha
  | cons b bs ih =>
    intro a ha hstep hmono s
    rcases List.mem_cons.mp ha with h | h
    · subst h
      exact foldl_preserve P f hmono bs (f s a) (hstep s)
    · exact ih a h hstep hmono (f s b)

/-! Order lemmas for the final sort comparator. -/

theorem listLt_nil_right (a : List Char) : listLt a [] = false := by
  cases a <;> simp [listLt]

theorem listLt_asymm : ∀ (a b : List Char), listLt a b = true → listLt b a = false := by
  intro a
  induction a with
  | nil =>
    intro b _
    exact listLt_nil_right b
  | cons c cs ih =>
    intro b h
    cases b with
    | nil => simp [listLt_nil_right] at h
    | cons d ds =>
      simp only [listLt] at h ⊢
      by_cases h1 : c.toNat < d.toNat
      · have h2 : ¬ d.toNat < c.toNat := by omega
        simp [h1, h2]
      · by_cases h2 : d.toNat < c.toNat
        · simp [h1, h2] at h
        · rw [if_neg h1, if_neg h2] at h
          rw [if_neg h2, if_neg h1]
          exact ih ds h

theorem listLt_trans : ∀ (a b c : List Char), listLt a b = true → listLt b c = true →
    listLt a c = true := by
  intro a
  induction a with
  | nil =>
    intro b c hab hbc
    cases c with
    | nil => rw [listLt_nil_right] at hbc; cases hbc
    | cons z zs => simp [listLt]
  | cons x xs ih =>
    intro b c hab hbc
    cases b with
    | nil => rw [listLt_nil_right] at hab; cases hab
    | cons y ys =>
      cases c with
      | nil => rw [listLt_nil_right] at hbc; cases hbc
      | cons z zs =>
        simp only [listLt] at hab hbc ⊢
        rcases Nat.lt_trichotomy x.toNat y.toNat with hxy | hxy | hxy
        · rcases Nat.lt_trichotomy y.toNat z.toNat with hyz | hyz | hyz
          · rw [if_pos (by omega)]
          · rw [if_pos (by omega)]
          · rw [if_neg (by omega), if_pos (by omega)] at hbc; cases hbc
        · rw [if_neg (by omega), if_neg (by omega)] at hab
          rcases Nat.lt_trichotomy y.toNat z.toNat with hyz | hyz | hyz
          · rw [if_pos (by omega)]
          · rw [if_neg (by omega), if_neg (by omega)] at hbc
            rw [if_neg (by omega), if_neg (by omega)]
            exact ih ys zs hab hbc
          · rw [if_neg (by omega), if_pos (by omega)] at hbc; cases hbc
        · rw [if_neg (by omega), if_pos (by omega)] at hab; cases hab

theorem listLt_negtrans : ∀ (a b c : List Char), listLt a b = false → listLt b c = false →
    listLt a c = false := by
  intro a
  induction a with
  | nil =>
    intro b c hab hbc
    cases b with
    | nil =>
      cases c with
      | nil => exact listLt_nil_right []
      | cons z zs => simp [listLt] at hbc
    | cons y ys => simp [listLt] at hab
  | cons x xs ih =>
    intro b c hab hbc
    cases c with
    | nil => exact listLt_nil_right _
    | cons z zs =>
      cases b with
      | nil => simp [listLt] at hbc
      | cons y ys =>
        simp only [listLt] at hab hbc ⊢
        rcases Nat.lt_trichotomy x.toNat y.toNat with hxy | hxy | hxy
        · rw [if_pos (by omega)] at hab; cases hab
        · rw [if_neg (by omega), if_neg (by omega)] at hab
          rcases Nat.lt_trichotomy y.toNat z.toNat with hyz | hyz | hyz
          · rw [if_pos (by omega)] at hbc; cases hbc
          · rw [if_neg (by omega), if_neg (by omega)] at hbc
            rw [if_neg (by omega), if_neg (by omega)]
            exact ih ys zs hab hbc
          · rw [if_neg (by omega), if_pos (by omega)]
        · rcases Nat.lt_trichotomy y.toNat z.toNat with hyz | hyz | hyz
          · rw [if_pos (by omega)] at hbc; cases hbc
          · rw [if_neg (by omega), if_pos (by omega)]
          · rw [if_neg (by omega), if_pos (by omega)]

theorem listLt_lt_of_lt_of_nlt : ∀ (a b c : List Char), listLt a b = true →
    listLt c b = false → listLt a c = true := by
  intro a
  induction a with
  | nil =>
    intro b c hab hcb
    cases b with
    | nil => rw [listLt_nil_right] at hab; cases hab
    | cons y ys =>
      cases c with
      | nil => simp [listLt] at hcb
      | cons z zs => simp [listLt]
  | cons x xs ih =>
    intro b c hab hcb
    cases b with
    | nil => rw [listLt_nil_right] at hab; cases hab
    | cons y ys =>
      cases c with
      | nil => simp [listLt] at hcb
      | cons z zs =>
        simp only [listLt] at hab hcb ⊢
        rcases Nat.lt_trichotomy x.toNat y.toNat with hxy | hxy | hxy
        · rcases Nat.lt_trichotomy z.toNat y.toNat with hzy | hzy | hzy
          · rw [if_pos (by omega)] at hcb; cases hcb
          · rw [if_pos (by omega)]
          · rw [if_pos (by omega)]
        · rw [if_neg (by omega), if_neg (by omega)] at hab
          rcases Nat.lt_trichotomy z.toNat y.toNat with hzy | hzy | hzy
          · rw [if_pos (by omega)] at hcb; cases hcb
          · rw [if_neg (by omega), if_neg (by omega)] at hcb
            rw [if_neg (by omega), if_neg (by omega)]
            exact ih ys zs hab hcb
          · rw [if_pos (by omega)]
        · rw [if_neg (by omega), if_pos (by omega)] at hab; cases hab

theorem listLt_lt_of_nlt_of_lt : ∀ (b a c : List Char), listLt b a = false →
    listLt b c = true → listLt a c = true := by
  intro b
  induction b with
  | nil =>
    intro a c hba hbc
    cases a with
    | nil => exact hbc
    | cons x xs => simp [listLt] at hba
  | cons y ys ih =>
    intro a c hba hbc
    cases c with
    | nil => rw [listLt_nil_right] at hbc; cases hbc
    | cons z zs =>
      cases a with
      | nil => simp [listLt]
      | cons x xs =>
        simp only [listLt] at hba hbc ⊢
        rcases Nat.lt_trichotomy y.toNat x.toNat with hyx | hyx | hyx
        · rw [if_pos (by omega)] at hba; cases hba
        · rw [if_neg (by omega), if_neg (by omega)] at hba
          rcases Nat.lt_trichotomy y.toNat z.toNat with hyz | hyz | hyz
          · rw [if_pos (by omega)]
          · rw [if_neg (by omega), if_neg (by omega)] at hbc
            rw [if_neg (by omega), if_neg (by omega)]
            exact ih xs zs hba hbc
          · rw [if_neg (by omega), if_pos (by omega)] at hbc; cases hbc
        · rcases Nat.lt_trichotomy y.toNat z.toNat with hyz | hyz | hyz
          · rw [if_pos (by omega)]
          · rw [if_pos (by omega)]
          · rw [if_neg (by omega), if_pos (by omega)] at hbc; cases hbc

theorem strLtB_asymm {a b : String} (h : strLtB a b = true) : strLtB b a = false :=
  listLt_asymm _ _ h

theorem strLtB_trans {a b c : String} (h1 : strLtB a b = true) (h2 : strLtB b c = true) :
    strLtB a c = true :=
  listLt_trans _ _ _ h1 h2

theorem strLtB_negtrans {a b c : String} (h1 : strLtB a b = false) (h2 : strLtB b c = false) :
    strLtB a c = false :=
  listLt_negtrans _ _ _ h1 h2

theorem strLtB_lt_of_lt_of_nlt {a b c : String} (h1 : strLtB a b = true)
    (h2 : strLtB c b = false) : strLtB a c = true :=
  listLt_lt_of_lt_of_nlt _ _ _ h1 h2

theorem strLtB_lt_of_nlt_of_lt {b a c : String} (h1 : strLtB b a = false)
    (h2 : strLtB b c = true) : strLtB a c = true :=
  listLt_lt_of_nlt_of_lt _ _ _ h1 h2

theorem urlLe_intro1 {a b : Url}
    (h : strLtB (firstSeg a.pathname) (firstSeg b.pathname) = true) : urlLe a b = true := by
  unfold urlLe
  simp [h]

theorem urlLe_intro2 {a b : Url}
    (h1 : strLtB (firstSeg a.pathname) (firstSeg b.pathname) = false)
    (h2 : strLtB (firstSeg b.pathname) (firstSeg a.pathname) = false)
    (h3 : strLtB (urlToString b) (urlToString a) = false) : urlLe a b = true := by
  unfold urlLe
  simp [h1, h2, h3]

theorem urlLe_cases {a b : Url} (h : urlLe a b = true) :
    strLtB (firstSeg a.pathname) (firstSeg b.pathname) = true ∨
      (strLtB (firstSeg a.pathname) (firstSeg b.pathname) = false ∧
        strLtB (firstSeg b.pathname) (firstSeg a.pathname) = false ∧
        strLtB (urlToString b) (urlToString a) = false) := by
  unfold urlLe at h
  by_cases h1 : strLtB (firstSeg a.pathname) (firstSeg b.pathname) = true
  · exact Or.inl h1
  · simp only [Bool.not_eq_true] at h1
    rw [if_neg (by simp [h1])] at h
    by_cases h2 : strLtB (firstSeg b.pathname) (firstSeg a.pathname) = true
    · rw [if_pos (by simp [h2])] at h
      cases h
    · simp only [Bool.not_eq_true] at h2
      rw [if_neg (by simp [h2])] at h
      exact Or.inr ⟨h1, h2, by simpa using h⟩

theorem urlLe_total (a b : Url) : urlLeR a b ∨ urlLeR b a := by
  unfold urlLeR
  by_cases h1 : strLtB (firstSeg a.pathname) (firstSeg b.pathname) = true
  · exact Or.inl (urlLe_intro1 h1)
  · simp only [Bool.not_eq_true] at h1
    by_cases h2 : strLtB (firstSeg b.pathname) (firstSeg a.pathname) = true
    · exact Or.inr (urlLe_intro1 h2)
    · simp only [Bool.not_eq_true] at h2
      by_cases h3 : strLtB (urlToString b) (urlToString a) = true
      · exact Or.inr (urlLe_intro2 h2 h1 (strLtB_asymm h3))
      · simp only [Bool.not_eq_true] at h3
        exact Or.inl (urlLe_intro2 h1 h2 h3)

theorem urlLe_trans (a b c : Url) : urlLeR a b → urlLeR b c → urlLeR a c := by
  intro hab hbc
  unfold urlLeR at hab hbc ⊢
  rcases urlLe_cases hab with h | ⟨hab1, hab2, hab3⟩ <;>
    rcases urlLe_cases hbc with h' | ⟨hbc1, hbc2, hbc3⟩
  · exact urlLe_intro1 (strLtB_trans h h')
  · exact urlLe_intro1 (strLtB_lt_of_lt_of_nlt h hbc2)
  · exact urlLe_intro1 (strLtB_lt_of_nlt_of_lt hab2 h')
  · exact urlLe_intro2 (strLtB_negtrans hab1 hbc1) (strLtB_negtrans hbc2 hab2)
      (strLtB_negtrans hbc3 hab3)

/-! Normalization lemmas. -/

theorem head?_dropWhile_false (q : Char → Bool) :
    ∀ (l : List Char) (a : Char), (l.dropWhile q).head? = Option.some a → q a = false := by
  intro l
  induction l with
  | nil => intro a h; simp [List.dropWhile] at h
  | cons c cs ih =>
    intro a h
    rw [List.dropWhile_cons] at h
    by_cases hc : q c = true
    · rw [if_pos hc] at h
      exact ih a h
    · rw [if_neg hc] at h
      simp only [List.head?_cons, Option.some.injEq] at h
      subst h
      simpa using hc

theorem stripTrailingSlashes_no_slash (s : String) (a : Char)
    (h : (stripTrailingSlashes s).data.getLast? = Option.some a) : ¬ a = '/' := by
  unfold stripTrailingSlashes at h
  simp only [String.data] at h
  rw [List.getLast?_reverse] at h
  have := head?_dropWhile_false (fun c => c == '/') _ _ h
  simpa using this

/-- Claim C6: a plain HTTP GET returning status 404 short-circuits
fetchPageContent to empty content without error, and the rendered fallback is
not attempted, whatever the fallback would have produced. -/
theorem claim6_notFound_short_circuits (targetUrl : String) (rendered : Option String) :
    fetchPageContent targetUrl PlainFetch.notFound rendered =
      { content := "", usedRendered := false } := by
  unfold fetchPageContent
  split <;> rfl

/-- Claim C7: when the plain fetch of an HTTP URL fails (bad status or
network error) and the rendered fetch also fails, fetchPageContent returns
empty content rather than propagating the failure. -/
theorem claim7_rendered_failure_returns_empty (targetUrl : String)
    (h : ¬ (strStartsWith targetUrl "mailto:" = true ∨ strStartsWith targetUrl "tel:" = true)) :
    fetchPageContent targetUrl PlainFetch.badStatus Option.none =
        { content := "", usedRendered := true } ∧
      fetchPageContent targetUrl PlainFetch.netError Option.none =
        { content := "", usedRendered := true } := by
  constructor <;> (unfold fetchPageContent; rw [if_neg h])

/-- Witness for claim C7's theorem at the concrete URL http://down.test/. -/
theorem claim7_witness :
    fetchPageContent "http://down.test/" PlainFetch.badStatus Option.none =
        { content := "", usedRendered := true } ∧
      fetchPageContent "http://down.test/" PlainFetch.netError Option.none =
        { content := "", usedRendered := true } :=
  claim7_rendered_failure_returns_empty "http://down.test/" (by decide)

/-- Claim C8: link normalization (strip fragment and query, strip trailing
slashes unless the path is the root) is idempotent. -/
theorem claim8_normalize_idempotent (u : Url) :
    normalizeUrl (normalizeUrl u) = normalizeUrl u := by
  cases u with
  | mk scheme hostname pathname search hash =>
    unfold normalizeUrl
    by_cases h : pathname ≠ "/" ∧ pathname.data.getLast? = Option.some '/'
    · rw [if_pos h]
      simp only
      rw [if_neg]
      intro hcon
      rcases hcon with ⟨_, hlast⟩
      exact stripTrailingSlashes_no_slash pathname '/' hlast rfl
    · rw [if_neg h]
      simp only
      rw [if_neg h]

/-! Component lemmas for link processing. -/

theorem mem_addToSet_of_mem {α : Type} [DecidableEq α] {l : List α} {p : α} (a : α)
    (h : p ∈ l) : p ∈ addToSet l a := by
  unfold addToSet
  split_ifs <;> simp [h]

theorem mem_addToSet_self {α : Type} [DecidableEq α] (l : List α) (a : α) :
    a ∈ addToSet l a := by
  unfold addToSet
  split_ifs with h <;> simp [h]

theorem detectPriority_eqs (cfg : CrawlConfig) (d : Nat) (st : CrawlState) (u : Url) :
    (detectPriority cfg d st u).found = st.found ∧
      (detectPriority cfg d st u).queue = st.queue ∧
      (detectPriority cfg d st u).visited = st.visited ∧
      (detectPriority cfg d st u).external = st.external ∧
      (detectPriority cfg d st u).fetchLog = st.fetchLog ∧
      (detectPriority cfg d st u).adaptiveMode = st.adaptiveMode ∧
      (detectPriority cfg d st u).timedOut = st.timedOut := by
  unfold detectPriority
  dsimp only
  split_ifs <;> simp

theorem detectPriority_paths_mono (cfg : CrawlConfig) (d : Nat) (st : CrawlState) (u : Url)
    (p : String) (hp : p ∈ st.priorityPaths) : p ∈ (detectPriority cfg d st u).priorityPaths := by
  unfold detectPriority
  dsimp only
  split_ifs <;> simp [mem_addToSet_of_mem _ hp, hp]

theorem addFound_eqs (cfg : CrawlConfig) (it : FrontierItem) (st : CrawlState) (u : Url) :
    (addFound cfg it st u).visited = st.visited ∧
      (addFound cfg it st u).external = st.external ∧
      (addFound cfg it st u).fetchLog = st.fetchLog ∧
      (addFound cfg it st u).priorityPaths = st.priorityPaths ∧
      (addFound cfg it st u).adaptiveMode = st.adaptiveMode ∧
      (addFound cfg it st u).timedOut = st.timedOut := by
  unfold addFound
  dsimp only
  split_ifs <;> simp

theorem addFound_found_cases (cfg : CrawlConfig) (it : FrontierItem) (st : CrawlState)
    (u : Url) :
    (addFound cfg it st u).found = st.found ∨
      (addFound cfg it st u).found = st.found ++ [u] := by
  unfold addFound
  dsimp only
  split_ifs <;> simp

theorem addFound_queue_found (cfg : CrawlConfig) (it : FrontierItem) (st : CrawlState)
    (u : Url) (h : ∀ j ∈ st.queue, j.url ∈ st.found) :
    ∀ j ∈ (addFound cfg it st u).queue, j.url ∈ (addFound cfg it st u).found := by
  unfold addFound
  dsimp only
  split_ifs
  · exact h
  · intro j hj
    simp only [List.mem_append] at hj
    rcases hj with hj | hj
    · exact List.mem_append_left _ (h j hj)
    · simp only [List.mem_singleton] at hj
      subst hj
      simp
  · intro j hj
    exact List.mem_append_left _ (h j hj)

theorem processLink_visited (cfg : CrawlConfig) (it : FrontierItem) (st : CrawlState)
    (l : Link) : (processLink cfg it st l).visited = st.visited := by
  unfold processLink
  dsimp only
  split_ifs <;>
    simp [(addFound_eqs cfg it (detectPriority cfg it.depth st (normalizeUrl l.url))
      (normalizeUrl l.url)).1,
      (detectPriority_eqs cfg it.depth st (normalizeUrl l.url)).2.2.1]

theorem processLink_fetchLog (cfg : CrawlConfig) (it : FrontierItem) (st : CrawlState)
    (l : Link) : (processLink cfg it st l).fetchLog = st.fetchLog := by
  unfold processLink
  dsimp only
  split_ifs <;>
    simp [(addFound_eqs cfg it (detectPriority cfg it.depth st (normalizeUrl l.url))
      (normalizeUrl l.url)).2.2.1,
      (detectPriority_eqs cfg it.depth st (normalizeUrl l.url)).2.2.2.2.1]

theorem processLink_adaptiveMode (cfg : CrawlConfig) (it : FrontierItem) (st : CrawlState)
    (l : Link) : (processLink cfg it st l).adaptiveMode = st.adaptiveMode := by
  unfold processLink
  dsimp only
  split_ifs <;>
    simp [(addFound_eqs cfg it (detectPriority cfg it.depth st (normalizeUrl l.url))
      (normalizeUrl l.url)).2.2.2.2.1,
      (detectPriority_eqs cfg it.depth st (normalizeUrl l.url)).2.2.2.2.2.1]

theorem processLink_timedOut (cfg : CrawlConfig) (it : FrontierItem) (st : CrawlState)
    (l : Link) : (processLink cfg it st l).timedOut = st.timedOut := by
  unfold processLink
  dsimp only
  split_ifs <;>
    simp [(addFound_eqs cfg it (detectPriority cfg it.depth st (normalizeUrl l.url))
      (normalizeUrl l.url)).2.2.2.2.2,
      (detectPriority_eqs cfg it.depth st (normalizeUrl l.url)).2.2.2.2.2.2]

theorem processLink_found_mono (cfg : CrawlConfig) (it : FrontierItem) (st : CrawlState)
    (l : Link) (u : Url) (hu : u ∈ st.found) : u ∈ (processLink cfg it st l).found := by
  unfold processLink
  dsimp only
  have hdp := (detectPriority_eqs cfg it.depth st (normalizeUrl l.url)).1
  split_ifs <;> try simpa using hu
  rcases addFound_found_cases cfg it (detectPriority cfg it.depth st (normalizeUrl l.url))
      (normalizeUrl l.url) with hc | hc <;> rw [hc, hdp]
  · exact hu
  · exact List.mem_append_left _ hu

theorem processLink_found_len (cfg : CrawlConfig) (it : FrontierItem) (st : CrawlState)
    (l : Link) : (processLink cfg it st l).found.length ≤ st.found.length + 1 := by
  unfold processLink
  dsimp only
  have hdp := (detectPriority_eqs cfg it.depth st (normalizeUrl l.url)).1
  split_ifs
  · omega
  · rcases addFound_found_cases cfg it (detectPriority cfg it.depth st (normalizeUrl l.url))
        (normalizeUrl l.url) with hc | hc <;> rw [hc, hdp] <;> simp
  · show st.found.length ≤ st.found.length + 1
    omega
  · omega

theorem processLink_paths_mono (cfg : CrawlConfig) (it : FrontierItem) (st : CrawlState)
    (l : Link) (p : String) (hp : p ∈ st.priorityPaths) :
    p ∈ (processLink cfg it st l).priorityPaths := by
  unfold processLink
  dsimp only
  have hdp := (addFound_eqs cfg it (detectPriority cfg it.depth st (normalizeUrl l.url))
      (normalizeUrl l.url)).2.2.2.1
  split_ifs <;> try simpa using hp
  rw [hdp]
  exact detectPriority_paths_mono cfg it.depth st (normalizeUrl l.url) p hp

theorem processLink_queue_found (cfg : CrawlConfig) (it : FrontierItem) (st : CrawlState)
    (l : Link) (h : ∀ j ∈ st.queue, j.url ∈ st.found) :
    ∀ j ∈ (processLink cfg it st l).queue, j.url ∈ (processLink cfg it st l).found := by
  unfold processLink
  dsimp only
  have hdpq := (detectPriority_eqs cfg it.depth st (normalizeUrl l.url)).2.1
  have hdpf := (detectPriority_eqs cfg it.depth st (normalizeUrl l.url)).1
  split_ifs <;> try simpa using h
  apply addFound_queue_found
  rw [hdpq, hdpf]
  exact h

/-- Claim C9: passing 0 for maxDepth, maxUrls, timeoutMs or batchSize makes
listDomainUrls silently substitute the built-in defaults 2, 50, 25000 and 5,
because defaults are applied with the JavaScript || operator; in particular a
crawl requested with maxDepth 0 behaves exactly like one with maxDepth 2. -/
theorem claim9_zero_options_take_defaults (opts : CrawlOptions)
    (exc inc : List (String → Bool)) (web : Url → Option Page) (clock : Nat → Nat)
    (fuel : Nat) (seed : Url) :
    (mkConfig { opts with maxDepth := Option.some 0 } exc inc seed).maxDepth = 2 ∧
      (mkConfig { opts with maxUrls := Option.some 0 } exc inc seed).maxUrls = 50 ∧
      (mkConfig { opts with timeoutMs := Option.some 0 } exc inc seed).timeoutMs = 25000 ∧
      (mkConfig { opts with batchSize := Option.some 0 } exc inc seed).batchSize = 5 ∧
      listDomainUrls { opts with maxDepth := Option.some 0 } exc inc web clock fuel seed =
        listDomainUrls { opts with maxDepth := Option.some 2 } exc inc web clock fuel seed := by
  refine ⟨rfl, rfl, rfl, rfl, ?_⟩
  have h : mkConfig { opts with maxDepth := Option.some 0 } exc inc seed =
      mkConfig { opts with maxDepth := Option.some 2 } exc inc seed := rfl
  unfold listDomainUrls listDomainUrlsState
  rw [h]

/-! Phase 2 lemmas: effects of the link-processing continuations. -/

theorem phase2Step_visited (cfg : CrawlConfig) (web : Url → Option Page) (st : CrawlState)
    (d : Decided) : (phase2Step cfg web st d).visited = st.visited := by
  unfold phase2Step
  dsimp only
  cases hw : web d.item.url
  · rfl
  · dsimp only
    refine foldl_preserve (fun s => s.visited = st.visited) (processLink cfg d.item) ?_ _ ({ st with fetchLog := st.fetchLog ++ [eventOf d] }) rfl
    intro s a hs
    rw [processLink_visited]
    exact hs

theorem phase2Step_adaptiveMode (cfg : CrawlConfig) (web : Url → Option Page)
    (st : CrawlState) (d : Decided) :
    (phase2Step cfg web st d).adaptiveMode = st.adaptiveMode := by
  unfold phase2Step
  dsimp only
  cases hw : web d.item.url
  · rfl
  · dsimp only
    refine foldl_preserve (fun s => s.adaptiveMode = st.adaptiveMode)
      (processLink cfg d.item) ?_ _ ({ st with fetchLog := st.fetchLog ++ [eventOf d] }) rfl
    intro s a hs
    rw [processLink_adaptiveMode]
    exact hs

theorem phase2Step_timedOut (cfg : CrawlConfig) (web : Url → Option Page) (st : CrawlState)
    (d : Decided) : (phase2Step cfg web st d).timedOut = st.timedOut := by
  unfold phase2Step
  dsimp only
  cases hw : web d.item.url
  · rfl
  · dsimp only
    refine foldl_preserve (fun s => s.timedOut = st.timedOut) (processLink cfg d.item) ?_ _ ({ st with fetchLog := st.fetchLog ++ [eventOf d] }) rfl
    intro s a hs
    rw [processLink_timedOut]
    exact hs

theorem phase2Step_fetchLog (cfg : CrawlConfig) (web : Url → Option Page) (st : CrawlState)
    (d : Decided) : (phase2Step cfg web st d).fetchLog = st.fetchLog ++ [eventOf d] := by
  unfold phase2Step
  dsimp only
  cases hw : web d.item.url
  · rfl
  · dsimp only
    refine foldl_preserve (fun s => s.fetchLog = st.fetchLog ++ [eventOf d])
      (processLink cfg d.item) ?_ _ ({ st with fetchLog := st.fetchLog ++ [eventOf d] }) rfl
    intro s a hs
    rw [processLink_fetchLog]
    exact hs

theorem phase2Step_found_mono (cfg : CrawlConfig) (web : Url → Option Page) (st : CrawlState)
    (d : Decided) (u : Url) (hu : u ∈ st.found) : u ∈ (phase2Step cfg web st d).found := by
  unfold phase2Step
  dsimp only
  cases hw : web d.item.url
  · exact hu
  · dsimp only
    refine foldl_preserve (fun s => u ∈ s.found) (processLink cfg d.item) ?_ _ ({ st with fetchLog := st.fetchLog ++ [eventOf d] }) hu
    intro s a hs
    exact processLink_found_mono cfg d.item s a u hs

theorem phase2Step_paths_mono (cfg : CrawlConfig) (web : Url → Option Page) (st : CrawlState)
    (d : Decided) (p : String) (hp : p ∈ st.priorityPaths) :
    p ∈ (phase2Step cfg web st d).priorityPaths := by
  unfold phase2Step
  dsimp only
  cases hw : web d.item.url
  · exact hp
  · dsimp only
    refine foldl_preserve (fun s => p ∈ s.priorityPaths) (processLink cfg d.item) ?_ _ ({ st with fetchLog := st.fetchLog ++ [eventOf d] }) hp
    intro s a hs
    exact processLink_paths_mono cfg d.item s a p hs

theorem phase2Step_queue_found (cfg : CrawlConfig) (web : Url → Option Page) (st : CrawlState)
    (d : Decided) (h : ∀ j ∈ st.queue, j.url ∈ st.found) :
    ∀ j ∈ (phase2Step cfg web st d).queue, j.url ∈ (phase2Step cfg web st d).found := by
  unfold phase2Step
  dsimp only
  cases hw : web d.item.url
  · exact h
  · dsimp only
    refine foldl_preserve (fun s => ∀ j ∈ s.queue, j.url ∈ s.found)
      (processLink cfg d.item) ?_ _ ({ st with fetchLog := st.fetchLog ++ [eventOf d] }) h
    intro s a hs
    exact processLink_queue_found cfg d.item s a hs

theorem foldl_processLink_len (cfg : CrawlConfig) (it : FrontierItem) :
    ∀ (links : List Link) (st : CrawlState),
      (links.foldl (processLink cfg it) st).found.length ≤ st.found.length + links.length := by
  intro links
  induction links with
  | nil => intro st; simp
  | cons l ls ih =>
    intro st
    rw [List.foldl_cons]
    have h1 := processLink_found_len cfg it st l
    have h2 := ih (processLink cfg it st l)
    simp only [List.length_cons]
    omega

theorem phase2Step_found_len (cfg : CrawlConfig) (web : Url → Option Page) (st : CrawlState)
    (d : Decided) (L : Nat) (hL : ∀ u p, web u = Option.some p → p.links.length ≤ L) :
    (phase2Step cfg web st d).found.length ≤ st.found.length + L := by
  unfold phase2Step
  dsimp only
  cases hw : web d.item.url with
  | none => simp
  | some page =>
    dsimp only
    have h1 := foldl_processLink_len cfg d.item page.links
      ({ st with fetchLog := st.fetchLog ++ [eventOf d] })
    have h2 := hL _ _ hw
    have h3 : ({ st with fetchLog := st.fetchLog ++ [eventOf d] } : CrawlState).found =
        st.found := rfl
    rw [h3] at h1
    omega

theorem phase2_fold_visited (cfg : CrawlConfig) (web : Url → Option Page)
    (ds : List Decided) (st : CrawlState) :
    (ds.foldl (phase2Step cfg web) st).visited = st.visited := by
  refine foldl_preserve (fun s => s.visited = st.visited) (phase2Step cfg web) ?_ _ _ rfl
  intro s a hs
  rw [phase2Step_visited]
  exact hs

theorem phase2_fold_adaptiveMode (cfg : CrawlConfig) (web : Url → Option Page)
    (ds : List Decided) (st : CrawlState) :
    (ds.foldl (phase2Step cfg web) st).adaptiveMode = st.adaptiveMode := by
  refine foldl_preserve (fun s => s.adaptiveMode = st.adaptiveMode) (phase2Step cfg web) ?_ _ _ rfl
  intro s a hs
  rw [phase2Step_adaptiveMode]
  exact hs

theorem phase2_fold_timedOut (cfg : CrawlConfig) (web : Url → Option Page)
    (ds : List Decided) (st : CrawlState) :
    (ds.foldl (phase2Step cfg web) st).timedOut = st.timedOut := by
  refine foldl_preserve (fun s => s.timedOut = st.timedOut) (phase2Step cfg web) ?_ _ _ rfl
  intro s a hs
  rw [phase2Step_timedOut]
  exact hs

theorem phase2_fold_fetchLog (cfg : CrawlConfig) (web : Url → Option Page) :
    ∀ (ds : List Decided) (st : CrawlState),
      (ds.foldl (phase2Step cfg web) st).fetchLog = st.fetchLog ++ ds.map eventOf := by
  intro ds
  induction ds with
  | nil => intro st; simp
  | cons d rest ih =>
    intro st
    rw [List.foldl_cons, ih, phase2Step_fetchLog]
    simp

theorem phase2_fold_found_mono (cfg : CrawlConfig) (web : Url → Option Page)
    (ds : List Decided) (st : CrawlState) (u : Url) (hu : u ∈ st.found) :
    u ∈ (ds.foldl (phase2Step cfg web) st).found := by
  refine foldl_preserve (fun s => u ∈ s.found) (phase2Step cfg web) ?_ _ _ hu
  intro s a hs
  exact phase2Step_found_mono cfg web s a u hs

theorem phase2_fold_paths_mono (cfg : CrawlConfig) (web : Url → Option Page)
    (ds : List Decided) (st : CrawlState) (p : String) (hp : p ∈ st.priorityPaths) :
    p ∈ (ds.foldl (phase2Step cfg web) st).priorityPaths := by
  refine foldl_preserve (fun s => p ∈ s.priorityPaths) (phase2Step cfg web) ?_ _ _ hp
  intro s a hs
  exact phase2Step_paths_mono cfg web s a p hs

theorem phase2_fold_queue_found (cfg : CrawlConfig) (web : Url → Option Page)
    (ds : List Decided) (st : CrawlState) (h : ∀ j ∈ st.queue, j.url ∈ st.found) :
    ∀ j ∈ (ds.foldl (phase2Step cfg web) st).queue,
      j.url ∈ (ds.foldl (phase2Step cfg web) st).found := by
  refine foldl_preserve (fun s => ∀ j ∈ s.queue, j.url ∈ s.found) (phase2Step cfg web) ?_ _ _ h
  intro s a hs
  exact phase2Step_queue_found cfg web s a hs

theorem phase2_fold_found_len (cfg : CrawlConfig) (web : Url → Option Page) (L : Nat)
    (hL : ∀ u p, web u = Option.some p → p.links.length ≤ L) :
    ∀ (ds : List Decided) (st : CrawlState),
      (ds.foldl (phase2Step cfg web) st).found.length ≤ st.found.length + ds.length * L := by
  intro ds
  induction ds with
  | nil => intro st; simp
  | cons d rest ih =>
    intro st
    rw [List.foldl_cons]
    have h1 := phase2Step_found_len cfg web st d L hL
    have h2 := ih (phase2Step cfg web st d)
    simp only [List.length_cons]
    have : (rest.length + 1) * L = rest.length * L + L := by ring
    omega

/-! Phase 1 lemmas: the synchronous gating prefixes of a wave. -/

theorem phase1Step_fst_eqs (cfg : CrawlConfig) (st : CrawlState) (ds : List Decided)
    (it : FrontierItem) :
    ((phase1Step cfg (st, ds) it).1).found = st.found ∧
      ((phase1Step cfg (st, ds) it).1).queue = st.queue ∧
      ((phase1Step cfg (st, ds) it).1).fetchLog = st.fetchLog ∧
      ((phase1Step cfg (st, ds) it).1).priorityPaths = st.priorityPaths ∧
      ((phase1Step cfg (st, ds) it).1).adaptiveMode = st.adaptiveMode ∧
      ((phase1Step cfg (st, ds) it).1).external = st.external ∧
      ((phase1Step cfg (st, ds) it).1).timedOut = st.timedOut := by
  unfold phase1Step
  dsimp only
  split_ifs <;> exact ⟨rfl, rfl, rfl, rfl, rfl, rfl, rfl⟩

theorem phase1Step_snd_len (cfg : CrawlConfig) (st : CrawlState) (ds : List Decided)
    (it : FrontierItem) : (phase1Step cfg (st, ds) it).2.length ≤ ds.length + 1 := by
  unfold phase1Step
  dsimp only
  split_ifs <;> simp

theorem phase1_fold_len (cfg : CrawlConfig) :
    ∀ (batch : List FrontierItem) (st : CrawlState) (ds : List Decided),
      (batch.foldl (phase1Step cfg) (st, ds)).2.length ≤ ds.length + batch.length := by
  intro batch
  induction batch with
  | nil => intro st ds; simp
  | cons b bs ih =>
    intro st ds
    rw [List.foldl_cons]
    have h1 := phase1Step_snd_len cfg st ds b
    have h2 := ih (phase1Step cfg (st, ds) b).1 (phase1Step cfg (st, ds) b).2
    rw [Prod.mk.eta] at h2
    simp only [List.length_cons]
    omega

/-- One wave's phase 1 satisfies its specification. -/
theorem phase1_fold_spec (cfg : CrawlConfig) (batch : List FrontierItem) (st0 : CrawlState)
    (hnodup : st0.visited.Nodup)
    (hsearch : st0.adaptiveMode = true → cfg.adaptiveSearch = true)
    (hpaths : st0.adaptiveMode = true → st0.priorityPaths ≠ []) :
    Phase1Spec cfg batch st0 (batch.foldl (phase1Step cfg) (st0, ([] : List Decided))) := by
  refine foldl_preserve_mem (Phase1Spec cfg batch st0) (phase1Step cfg) batch ?_ (st0, []) ?_
  · rintro ⟨st, ds⟩ it hit hQ
    unfold Phase1Spec at hQ ⊢
    obtain ⟨h1, h2, h3, h4, h5, h6, h7, h8, h9, h10, h11, h12, h13, h14⟩ := hQ
    unfold phase1Step
    dsimp only
    split_ifs with hskip hprune
    · exact ⟨h1, h2, h3, h4, h5, h6, h7, h8, h9, h10, h11, h12, h13, h14⟩
    · have hfresh : it.url ∉ st.visited := fun hmem => hskip (Or.inl hmem)
      refine ⟨h1, h2, h3, h4, h5, h6, h7, ?_, ?_, ?_, h11, ?_, h13, h14⟩
      · rw [List.nodup_append]
        refine ⟨h8, List.nodup_singleton _, ?_⟩
        intro a ha hmem
        rw [List.mem_singleton] at hmem
        subst hmem
        exact hfresh ha
      · intro u hu
        exact List.mem_append_left _ (h9 u hu)
      · intro u hu
        rcases List.mem_append.mp hu with hu | hu
        · exact h10 u hu
        · rw [List.mem_singleton] at hu
          subst hu
          exact Or.inr ⟨it, hit, rfl⟩
      · intro d hd
        exact List.mem_append_left _ (h12 d hd)
    · have hfresh : it.url ∉ st.visited := fun hmem => hskip (Or.inl hmem)
      refine ⟨h1, h2, h3, h4, h5, h6, h7, ?_, ?_, ?_, ?_, ?_, ?_, ?_⟩
      · rw [List.nodup_append]
        refine ⟨h8, List.nodup_singleton _, ?_⟩
        intro a ha hmem
        rw [List.mem_singleton] at hmem
        subst hmem
        exact hfresh ha
      · intro u hu
        exact List.mem_append_left _ (h9 u hu)
      · intro u hu
        rcases List.mem_append.mp hu with hu | hu
        · exact h10 u hu
        · rw [List.mem_singleton] at hu
          subst hu
          exact Or.inr ⟨it, hit, rfl⟩
      · rw [List.map_append, List.nodup_append]
        refine ⟨h11, by simp, ?_⟩
        intro a ha hmem
        simp only [List.map_cons, List.map_nil, List.mem_singleton] at hmem
        subst hmem
        rcases List.mem_map.mp ha with ⟨d, hd, hdu⟩
        exact hfresh (hdu ▸ h12 d hd)
      · intro d hd
        rcases List.mem_append.mp hd with hd | hd
        · exact List.mem_append_left _ (h12 d hd)
        · rw [List.mem_singleton] at hd
          subst hd
          exact List.mem_append_right _ (by simp)
      · intro d hd
        rcases List.mem_append.mp hd with hd | hd
        · exact h13 d hd
        · rw [List.mem_singleton] at hd
          subst hd
          intro hmem
          exact hfresh (h9 _ hmem)
      · intro d hd
        rcases List.mem_append.mp hd with hd | hd
        · exact h14 d hd
        · rw [List.mem_singleton] at hd
          subst hd
          refine ⟨h5, h4, ⟨it, hit, rfl⟩, ?_⟩
          intro hAdap hdepth
          have h0 : st0.adaptiveMode = true := by rw [← h5]; exact hAdap
          have hA : cfg.adaptiveSearch = true := hsearch h0
          have hC : st.priorityPaths ≠ [] := by rw [h4]; exact hpaths h0
          have hD : ¬ (∀ pp ∈ st.priorityPaths, strStartsWith it.url.pathname pp = false) := by
            intro hall
            exact hprune ⟨hA, hAdap, hC, hall, hdepth⟩
          push_neg at hD
          obtain ⟨pp, hppmem, hppne⟩ := hD
          refine ⟨pp, hppmem, ?_⟩
          revert hppne
          cases strStartsWith it.url.pathname pp <;> simp
  · unfold Phase1Spec
    refine ⟨rfl, rfl, rfl, rfl, rfl, rfl, rfl, hnodup, fun u hu => hu, fun u hu => Or.inl hu,
      ?_, ?_, ?_, ?_⟩
    · simp
    · simp
    · simp
    · simp

/-! Preservation of the crawl-state invariant. -/

theorem waveStep_Inv (cfg : CrawlConfig) (web : Url → Option Page) (st : CrawlState)
    (hInv : Inv cfg st) : Inv cfg (waveStep cfg web st) := by
  obtain ⟨iv1, iv2, iv3, iv4, iv5, iv6, iv7, iv8⟩ := hInv
  unfold waveStep
  dsimp only
  generalize hq : (st.queue.take cfg.batchSize).foldl (phase1Step cfg)
      ({ st with queue := st.queue.drop cfg.batchSize }, ([] : List Decided)) = q
  have hspec := phase1_fold_spec cfg (st.queue.take cfg.batchSize)
      ({ st with queue := st.queue.drop cfg.batchSize }) iv1 iv6 iv7
  rw [hq] at hspec
  unfold Phase1Spec at hspec
  dsimp only at hspec
  obtain ⟨s1, s2, s3, s4, s5, s6, s7, s8, s9, s10, s11, s12, s13, s14⟩ := hspec
  generalize hst2 : q.2.foldl (phase2Step cfg web) q.1 = st2
  have hvis : st2.visited = q.1.visited := by
    rw [← hst2]
    exact phase2_fold_visited cfg web q.2 q.1
  have hmode : st2.adaptiveMode = st.adaptiveMode := by
    rw [← hst2, phase2_fold_adaptiveMode cfg web q.2 q.1]
    exact s5
  have htime : st2.timedOut = st.timedOut := by
    rw [← hst2, phase2_fold_timedOut cfg web q.2 q.1]
    exact s7
  have hlog : st2.fetchLog = st.fetchLog ++ q.2.map eventOf := by
    rw [← hst2, phase2_fold_fetchLog cfg web q.2 q.1, s3]
  have hfmono : ∀ u ∈ st.found, u ∈ st2.found := by
    intro u hu
    rw [← hst2]
    refine phase2_fold_found_mono cfg web q.2 q.1 u ?_
    rw [s1]
    exact hu
  have hpmono : ∀ x ∈ st.priorityPaths, x ∈ st2.priorityPaths := by
    intro x hx
    rw [← hst2]
    refine phase2_fold_paths_mono cfg web q.2 q.1 x ?_
    rw [s4]
    exact hx
  have hqf : ∀ j ∈ st2.queue, j.url ∈ st2.found := by
    rw [← hst2]
    refine phase2_fold_queue_found cfg web q.2 q.1 ?_
    intro j hj
    rw [s1]
    rw [s2] at hj
    exact iv5 j (List.drop_subset _ _ hj)
  have hInv2 : Inv cfg st2 := by
    refine ⟨?_, ?_, ?_, ?_, hqf, ?_, ?_, ?_⟩
    · rw [hvis]
      exact s8
    · rw [hlog, List.map_append, List.nodup_append]
      refine ⟨iv2, ?_, ?_⟩
      · rw [List.map_map]
        have hcomp : ((fun e : FetchEvent => e.url) ∘ eventOf) =
            (fun d : Decided => d.item.url) := rfl
        rw [hcomp]
        exact s11
      · intro a ha hb
        rw [List.map_map] at hb
        rcases List.mem_map.mp ha with ⟨e, he, heu⟩
        rcases List.mem_map.mp hb with ⟨d, hd, hdu⟩
        have h1 := iv3 e he
        have h2 := s13 d hd
        apply h2
        have hdu2 : d.item.url = a := hdu
        rw [hdu2]
        rw [← heu]
        exact h1
    · intro e he
      rw [hlog] at he
      rw [hvis]
      rcases List.mem_append.mp he with he | he
      · exact s9 _ (iv3 e he)
      · rcases List.mem_map.mp he with ⟨d, hd, hde⟩
        have h12 := s12 d hd
        rw [← hde]
        exact h12
    · intro u hu
      rw [hvis] at hu
      rcases s10 u hu with h | ⟨b, hb, hbu⟩
      · exact hfmono u (iv4 u h)
      · have hbf : b.url ∈ st.found := iv5 b (List.take_subset _ _ hb)
        rw [← hbu]
        exact hfmono _ hbf
    · intro h
      rw [hmode] at h
      exact iv6 h
    · intro h
      rw [hmode] at h
      rcases List.exists_mem_of_ne_nil _ (iv7 h) with ⟨x, hx⟩
      exact List.ne_nil_of_mem (hpmono x hx)
    · intro e he hea hed
      rw [hlog] at he
      rcases List.mem_append.mp he with he | he
      · exact iv8 e he hea hed
      · rcases List.mem_map.mp he with ⟨d, hd, hde⟩
        have h14 := (s14 d hd).2.2.2
        subst hde
        exact h14 hea hed
  split_ifs with hlatch
  · obtain ⟨j1, j2, j3, j4, j5, j6, j7, j8⟩ := hInv2
    exact ⟨j1, j2, j3, j4, j5, fun _ => hlatch.1, fun _ => hlatch.2.2.2, j8⟩
  · exact hInv2

/-! Hypothesis-free projections of phase 1 and of whole waves. -/

theorem phase1_fold_fst_found (cfg : CrawlConfig) (batch : List FrontierItem)
    (st0 : CrawlState) (ds : List Decided) :
    (batch.foldl (phase1Step cfg) (st0, ds)).1.found = st0.found := by
  refine foldl_preserve (fun p => p.1.found = st0.found) (phase1Step cfg) ?_ batch (st0, ds) rfl
  rintro ⟨s, l⟩ a hs
  rw [(phase1Step_fst_eqs cfg s l a).1]
  exact hs

theorem phase1_fold_fst_adaptiveMode (cfg : CrawlConfig) (batch : List FrontierItem)
    (st0 : CrawlState) (ds : List Decided) :
    (batch.foldl (phase1Step cfg) (st0, ds)).1.adaptiveMode = st0.adaptiveMode := by
  refine foldl_preserve (fun p => p.1.adaptiveMode = st0.adaptiveMode) (phase1Step cfg) ?_
    batch (st0, ds) rfl
  rintro ⟨s, l⟩ a hs
  rw [(phase1Step_fst_eqs cfg s l a).2.2.2.2.1]
  exact hs

theorem phase1_fold_fst_timedOut (cfg : CrawlConfig) (batch : List FrontierItem)
    (st0 : CrawlState) (ds : List Decided) :
    (batch.foldl (phase1Step cfg) (st0, ds)).1.timedOut = st0.timedOut := by
  refine foldl_preserve (fun p => p.1.timedOut = st0.timedOut) (phase1Step cfg) ?_
    batch (st0, ds) rfl
  rintro ⟨s, l⟩ a hs
  rw [(phase1Step_fst_eqs cfg s l a).2.2.2.2.2.2]
  exact hs

theorem waveStep_found_mono (cfg : CrawlConfig) (web : Url → Option Page) (st : CrawlState)
    (u : Url) (hu : u ∈ st.found) : u ∈ (waveStep cfg web st).found := by
  unfold waveStep
  dsimp only
  split_ifs <;>
    exact phase2_fold_found_mono cfg web _ _ u (by rw [phase1_fold_fst_found]; exact hu)

theorem waveStep_adaptiveMode_mono (cfg : CrawlConfig) (web : Url → Option Page)
    (st : CrawlState) (h : st.adaptiveMode = true) :
    (waveStep cfg web st).adaptiveMode = true := by
  unfold waveStep
  dsimp only
  split_ifs
  · rfl
  · rw [phase2_fold_adaptiveMode, phase1_fold_fst_adaptiveMode]
    exact h

theorem waveStep_timedOut (cfg : CrawlConfig) (web : Url → Option Page) (st : CrawlState) :
    (waveStep cfg web st).timedOut = st.timedOut := by
  unfold waveStep
  dsimp only
  split_ifs <;> simp [phase2_fold_timedOut, phase1_fold_fst_timedOut]

theorem waveStep_found_len (cfg : CrawlConfig) (web : Url → Option Page) (st : CrawlState)
    (L : Nat) (hL : ∀ u p, web u = Option.some p → p.links.length ≤ L) :
    (waveStep cfg web st).found.length ≤ st.found.length + cfg.batchSize * L := by
  unfold waveStep
  dsimp only
  generalize hq : (st.queue.take cfg.batchSize).foldl (phase1Step cfg)
      ({ st with queue := st.queue.drop cfg.batchSize }, ([] : List Decided)) = q
  have h1 := phase2_fold_found_len cfg web L hL q.2 q.1
  have h2 : q.1.found = st.found := by
    rw [← hq, phase1_fold_fst_found]
  have h3 : q.2.length ≤ cfg.batchSize := by
    rw [← hq]
    have h4 := phase1_fold_len cfg (st.queue.take cfg.batchSize)
      ({ st with queue := st.queue.drop cfg.batchSize }) []
    have h5 : (st.queue.take cfg.batchSize).length ≤ cfg.batchSize :=
      List.length_take_le _ _
    simp only [List.length_nil] at h4
    omega
  have h6 : q.2.length * L ≤ cfg.batchSize * L := Nat.mul_le_mul_right L h3
  rw [h2] at h1
  generalize hst2 : q.2.foldl (phase2Step cfg web) q.1 = st2
  rw [hst2] at h1
  split_ifs
  · have hproj : ({ st2 with adaptiveMode := true } : CrawlState).found = st2.found := rfl
    rw [hproj]
    omega
  · omega

theorem crawlLoop_Inv (cfg : CrawlConfig) (web : Url → Option Page) (clock : Nat → Nat) :
    ∀ (fuel k : Nat) (st : CrawlState), Inv cfg st →
      Inv cfg (crawlLoop cfg web clock fuel k st) := by
  intro fuel
  induction fuel with
  | zero => intro k st h; exact h
  | succ n ih =>
    intro k st h
    unfold crawlLoop
    dsimp only
    split_ifs with h1 h2 h3
    · exact h
    · obtain ⟨i1, i2, i3, i4, i5, i6, i7, i8⟩ := h
      exact ⟨i1, i2, i3, i4, i5, i6, i7, i8⟩
    · exact waveStep_Inv cfg web st h
    · exact ih (k + 1) _ (waveStep_Inv cfg web st h)

theorem crawlLoop_found_mono (cfg : CrawlConfig) (web : Url → Option Page) (clock : Nat → Nat) :
    ∀ (fuel k : Nat) (st : CrawlState) (u : Url), u ∈ st.found →
      u ∈ (crawlLoop cfg web clock fuel k st).found := by
  intro fuel
  induction fuel with
  | zero => intro k st u h; exact h
  | succ n ih =>
    intro k st u h
    unfold crawlLoop
    dsimp only
    split_ifs with h1 h2 h3
    · exact h
    · exact h
    · exact waveStep_found_mono cfg web st u h
    · exact ih (k + 1) _ u (waveStep_found_mono cfg web st u h)

theorem crawlLoop_adaptiveMode_mono (cfg : CrawlConfig) (web : Url → Option Page)
    (clock : Nat → Nat) :
    ∀ (fuel k : Nat) (st : CrawlState), st.adaptiveMode = true →
      (crawlLoop cfg web clock fuel k st).adaptiveMode = true := by
  intro fuel
  induction fuel with
  | zero => intro k st h; exact h
  | succ n ih =>
    intro k st h
    unfold crawlLoop
    dsimp only
    split_ifs with h1 h2 h3
    · exact h
    · exact h
    · exact waveStep_adaptiveMode_mono cfg web st h
    · exact ih (k + 1) _ (waveStep_adaptiveMode_mono cfg web st h)

theorem crawlLoop_timedOut_stable (cfg : CrawlConfig) (web : Url → Option Page)
    (clock : Nat → Nat) (hclock : ∀ k, ¬ cfg.timeoutMs < clock k) :
    ∀ (fuel k : Nat) (st : CrawlState),
      (crawlLoop cfg web clock fuel k st).timedOut = st.timedOut := by
  intro fuel
  induction fuel with
  | zero => intro k st; rfl
  | succ n ih =>
    intro k st
    unfold crawlLoop
    dsimp only
    split_ifs with h1 h2 h3
    · rfl
    · exact absurd h2 (hclock k)
    · exact waveStep_timedOut cfg web st
    · rw [ih (k + 1) _]
      exact waveStep_timedOut cfg web st

theorem crawlLoop_found_bound (cfg : CrawlConfig) (web : Url → Option Page)
    (clock : Nat → Nat) (L : Nat) (hL : ∀ u p, web u = Option.some p → p.links.length ≤ L) :
    ∀ (fuel k : Nat) (st : CrawlState),
      (crawlLoop cfg web clock fuel k st).found.length ≤
        max st.found.length (cfg.maxUrls - 1 + cfg.batchSize * L) := by
  intro fuel
  induction fuel with
  | zero => intro k st; exact le_max_left _ _
  | succ n ih =>
    intro k st
    unfold crawlLoop
    dsimp only
    split_ifs with h1 h2 h3
    · exact le_max_left _ _
    · exact le_max_left _ _
    · push_neg at h1
      have hlen : st.found.length ≤ cfg.maxUrls - 1 := by
        have := h1.2.1
        omega
      have hw := waveStep_found_len cfg web st L hL
      refine le_trans ?_ (le_max_right _ _)
      calc (waveStep cfg web st).found.length ≤ st.found.length + cfg.batchSize * L := hw
        _ ≤ cfg.maxUrls - 1 + cfg.batchSize * L := Nat.add_le_add_right hlen _
    · push_neg at h1
      have hlen : st.found.length ≤ cfg.maxUrls - 1 := by
        have := h1.2.1
        omega
      have hw : (waveStep cfg web st).found.length ≤ cfg.maxUrls - 1 + cfg.batchSize * L := by
        calc (waveStep cfg web st).found.length ≤ st.found.length + cfg.batchSize * L :=
          waveStep_found_len cfg web st L hL
          _ ≤ cfg.maxUrls - 1 + cfg.batchSize * L := Nat.add_le_add_right hlen _
      have hrec := ih (k + 1) (waveStep cfg web st)
      refine le_trans hrec ?_
      rw [max_eq_right hw]
      exact le_max_right _ _

/-! Priority-path promotion support. -/

theorem resolveNat_pos (o : Option Nat) (d : Nat) (hd : 0 < d) : 0 < resolveNat o d := by
  unfold resolveNat
  cases o with
  | none => exact hd
  | some n =>
    dsimp only
    split_ifs with h
    · exact hd
    · omega

theorem initState_Inv (cfg : CrawlConfig) (seed : Url) : Inv cfg (initState seed) := by
  refine ⟨by simp [initState], by simp [initState], by simp [initState], by simp [initState],
    ?_, by simp [initState], by simp [initState], by simp [initState]⟩
  intro j hj
  simp only [initState, List.mem_singleton] at hj
  subst hj
  simp [initState]

theorem phase1_singleton_snd (cfg : CrawlConfig) (st0 : CrawlState) (it : FrontierItem)
    (h1 : it.url ∉ st0.visited) (h2 : it.depth < cfg.maxDepth) (hd : it.depth = 0) :
    ([it].foldl (phase1Step cfg) (st0, ([] : List Decided))).2 =
      [{ item := it, adaptive := st0.adaptiveMode, paths := st0.priorityPaths }] := by
  have hc1 : ¬ (it.url ∈ st0.visited ∨ (it.noDepthLimit = false ∧ cfg.maxDepth ≤ it.depth)) := by
    intro hcon
    rcases hcon with hmem | ⟨_, hle⟩
    · exact h1 hmem
    · omega
  have hc2 : ¬ (cfg.adaptiveSearch = true ∧ st0.adaptiveMode = true ∧
      st0.priorityPaths ≠ [] ∧
      (∀ pp ∈ st0.priorityPaths, strStartsWith it.url.pathname pp = false) ∧
      0 < it.depth) := by
    intro hcon
    rw [hd] at hcon
    exact absurd hcon.2.2.2.2 (lt_irrefl 0)
  rw [List.foldl_cons, List.foldl_nil]
  unfold phase1Step
  dsimp only
  rw [if_neg hc1, if_neg hc2]
  simp

theorem processLink_promotes (cfg : CrawlConfig) (it : FrontierItem) (l : Link)
    (hdepth : it.depth = 0)
    (hint : isInternal cfg (normalizeUrl l.url) = true)
    (hfilter : linkFilteredOut cfg (normalizeUrl l.url) l.text = false)
    (hsearch : cfg.adaptiveSearch = true)
    (hcarta : isCartaPath (lowerStr (normalizeUrl l.url).pathname) = true)
    (hseg : 0 < (pathSegments (lowerStr (normalizeUrl l.url).pathname)).length)
    (s : CrawlState) :
    ("/" ++ (pathSegments (lowerStr (normalizeUrl l.url).pathname)).headD "") ∈
      (processLink cfg it s l).priorityPaths := by
  unfold processLink
  dsimp only
  rw [if_pos hint, if_neg (by rw [hfilter]; simp)]
  rw [(addFound_eqs cfg it (detectPriority cfg it.depth s (normalizeUrl l.url))
    (normalizeUrl l.url)).2.2.2.1]
  unfold detectPriority
  dsimp only
  rw [if_pos ⟨hsearch, hdepth⟩, if_pos hcarta, if_pos hseg]
  exact mem_addToSet_self _ _

theorem phase2_fold_mem_paths (cfg : CrawlConfig) (web : Url → Option Page)
    (ds : List Decided) (st : CrawlState) (d : Decided) (hd : d ∈ ds)
    (page : Page) (hweb : web d.item.url = Option.some page) (l : Link) (hl : l ∈ page.links)
    (pfx : String)
    (hstep : ∀ s : CrawlState, pfx ∈ (processLink cfg d.item s l).priorityPaths) :
    pfx ∈ (ds.foldl (phase2Step cfg web) st).priorityPaths := by
  refine foldl_of_mem (fun s => pfx ∈ s.priorityPaths) (phase2Step cfg web) ds d hd ?_ ?_ st
  · intro s
    unfold phase2Step
    dsimp only
    rw [hweb]
    exact foldl_of_mem (fun s2 => pfx ∈ s2.priorityPaths) (processLink cfg d.item)
      page.links l hl hstep
      (fun s2 b hs2 => processLink_paths_mono cfg d.item s2 b pfx hs2) _
  · intro s b hs
    exact phase2Step_paths_mono cfg web s b pfx hs

theorem waveStep_promotes (cfg : CrawlConfig) (web : Url → Option Page) (st : CrawlState)
    (it : FrontierItem) (hqueue : st.queue = [it])
    (hfresh : it.url ∉ st.visited) (hdlt : it.depth < cfg.maxDepth) (hd0 : it.depth = 0)
    (hbs : 1 ≤ cfg.batchSize)
    (page : Page) (hweb : web it.url = Option.some page) (l : Link) (hl : l ∈ page.links)
    (hint : isInternal cfg (normalizeUrl l.url) = true)
    (hfilter : linkFilteredOut cfg (normalizeUrl l.url) l.text = false)
    (hsearch : cfg.adaptiveSearch = true)
    (hcarta : isCartaPath (lowerStr (normalizeUrl l.url).pathname) = true)
    (hseg : 0 < (pathSegments (lowerStr (normalizeUrl l.url).pathname)).length) :
    ("/" ++ (pathSegments (lowerStr (normalizeUrl l.url).pathname)).headD "") ∈
      (waveStep cfg web st).priorityPaths := by
  unfold waveStep
  dsimp only
  rw [hqueue]
  rw [List.take_of_length_le (by simpa using hbs), List.drop_eq_nil_of_le (by simpa using hbs)]
  rw [phase1_singleton_snd cfg { st with queue := [] } it hfresh hdlt hd0]
  have hstep := processLink_promotes cfg it l hd0 hint hfilter hsearch hcarta hseg
  have hmem := phase2_fold_mem_paths cfg web
    [{ item := it, adaptive := ({ st with queue := [] } : CrawlState).adaptiveMode,
       paths := ({ st with queue := [] } : CrawlState).priorityPaths }]
    (([it].foldl (phase1Step cfg) ({ st with queue := [] }, ([] : List Decided))).1)
    { item := it, adaptive := ({ st with queue := [] } : CrawlState).adaptiveMode,
      paths := ({ st with queue := [] } : CrawlState).priorityPaths }
    (by simp) page hweb l hl _ hstep
  split_ifs
  · exact hmem
  · exact hmem

/-! The remaining claims. -/

/-- Claim C1, as stated, is false: with maxUrls resolved to 2 and a depth-0
page exposing five internal links, the crawl returns six URLs, because links
found inside one wave are collected without consulting maxUrls. -/
theorem claim1_maxUrls_counterexample :
    (mkConfig exOpts5 [] [] exSeed).maxUrls = 2 ∧
      ¬ ((listDomainUrls exOpts5 [] [] exWeb5 (fun _ => 0) 5 exSeed).urlsFound ≤
        (mkConfig exOpts5 [] [] exSeed).maxUrls) := by
  constructor
  · rfl
  · decide

/-- Claim C1 amended: the loop guard checks maxUrls only between waves, so
with every fetched page yielding at most L links the number of URLs in
result.urls is bounded by max 1 (maxUrls - 1 + batchSize * L); the bound
maxUrls itself can be exceeded by the links of the final wave. -/
theorem claim1_maxUrls_amended (opts : CrawlOptions) (exc inc : List (String → Bool))
    (web : Url → Option Page) (clock : Nat → Nat) (fuel : Nat) (seed : Url) (L : Nat)
    (hL : ∀ u p, web u = Option.some p → p.links.length ≤ L) :
    (listDomainUrls opts exc inc web clock fuel seed).urlsFound ≤
      max 1 ((mkConfig opts exc inc seed).maxUrls - 1 +
        (mkConfig opts exc inc seed).batchSize * L) := by
  unfold listDomainUrls finalizeResult listDomainUrlsState
  dsimp only
  have h := crawlLoop_found_bound (mkConfig opts exc inc seed) web clock L hL fuel 0
    (initState seed)
  simpa [initState] using h

/-- Witness for the amended claim C1 at the five-link scenario. -/
theorem claim1_maxUrls_amended_witness :
    (listDomainUrls exOpts5 [] [] exWeb5 (fun _ => 0) 5 exSeed).urlsFound ≤
      max 1 ((mkConfig exOpts5 [] [] exSeed).maxUrls - 1 +
        (mkConfig exOpts5 [] [] exSeed).batchSize * 5) := by
  refine claim1_maxUrls_amended exOpts5 [] [] exWeb5 (fun _ => 0) 5 exSeed 5 ?_
  intro u p h
  by_cases hu : u = exSeed
  · subst hu
    have h2 : Option.some exPage5 = Option.some p := by simpa [exWeb5] using h
    injection h2 with h3
    subst h3
    decide
  · simp [exWeb5, hu] at h

/-- Claim C2: with adaptive search on, a depth-0 link under /menu/especial
that is internal and passes the filters puts /menu into priorityPaths after
the first wave; the adaptive latch is never exited; and every fetch issued at
depth > 0 while adaptiveMode was true was for a URL prefixed by a priority
path registered at fetch time (a pruned item is marked visited but never
fetched). -/
theorem claim2_adaptive_promotion_and_pruning (opts : CrawlOptions)
    (exc inc : List (String → Bool)) (web : Url → Option Page) (clock : Nat → Nat)
    (fuel : Nat) (seed : Url) (page : Page) (l : Link)
    (hsearch : (mkConfig opts exc inc seed).adaptiveSearch = true)
    (hweb : web seed = Option.some page)
    (hl : l ∈ page.links)
    (hexact : (mkConfig opts exc inc seed).exactUrl = false)
    (hhost : (normalizeUrl l.url).hostname = seed.hostname)
    (hfilter : linkFilteredOut (mkConfig opts exc inc seed) (normalizeUrl l.url) l.text = false)
    (hpath : lowerStr (normalizeUrl l.url).pathname = "/menu/especial") :
    "/menu" ∈ (waveStep (mkConfig opts exc inc seed) web (initState seed)).priorityPaths ∧
      (∀ (fuel2 k : Nat) (st : CrawlState), st.adaptiveMode = true →
        (crawlLoop (mkConfig opts exc inc seed) web clock fuel2 k st).adaptiveMode = true) ∧
      (∀ e ∈ (listDomainUrlsState opts exc inc web clock fuel seed).fetchLog,
        e.adaptive = true → 0 < e.depth →
        ∃ pp ∈ e.paths, strStartsWith e.url.pathname pp = true) := by
  refine ⟨?_, fun fuel2 k st h =>
    crawlLoop_adaptiveMode_mono (mkConfig opts exc inc seed) web clock fuel2 k st h, ?_⟩
  · have hint : isInternal (mkConfig opts exc inc seed) (normalizeUrl l.url) = true := by
      unfold isInternal
      rw [if_neg (by rw [hexact]; simp)]
      have hb : (mkConfig opts exc inc seed).base = seed := rfl
      rw [hb, hhost]
      simp
    have hcarta : isCartaPath (lowerStr (normalizeUrl l.url).pathname) = true := by
      rw [hpath]
      decide
    have hseg : 0 < (pathSegments (lowerStr (normalizeUrl l.url).pathname)).length := by
      rw [hpath]
      decide
    have hfresh : ({ url := seed, depth := 0, noDepthLimit := false } : FrontierItem).url ∉
        (initState seed).visited := by
      simp [initState]
    have h := waveStep_promotes (mkConfig opts exc inc seed) web (initState seed)
      { url := seed, depth := 0, noDepthLimit := false } rfl hfresh
      (resolveNat_pos opts.maxDepth 2 (by norm_num)) rfl
      (resolveNat_pos opts.batchSize 5 (by norm_num))
      page hweb l hl hint hfilter hsearch hcarta hseg
    have hpfx : ("/" ++ (pathSegments (lowerStr (normalizeUrl l.url).pathname)).headD "") =
        "/menu" := by
      rw [hpath]
      decide
    rw [hpfx] at h
    exact h
  · have h := crawlLoop_Inv (mkConfig opts exc inc seed) web clock fuel 0 (initState seed)
      (initState_Inv _ seed)
    obtain ⟨_, _, _, _, _, _, _, h8⟩ := h
    exact h8

/-- Witness for claim C2's theorem at the concrete /menu/especial scenario. -/
theorem claim2_witness :
    "/menu" ∈ (waveStep (mkConfig exOptsMenu [] [] exSeed) exWebMenu
        (initState exSeed)).priorityPaths ∧
      (∀ (fuel2 k : Nat) (st : CrawlState), st.adaptiveMode = true →
        (crawlLoop (mkConfig exOptsMenu [] [] exSeed) exWebMenu (fun _ => 0) fuel2 k
          st).adaptiveMode = true) ∧
      (∀ e ∈ (listDomainUrlsState exOptsMenu [] [] exWebMenu (fun _ => 0) 6
          exSeed).fetchLog,
        e.adaptive = true → 0 < e.depth →
        ∃ pp ∈ e.paths, strStartsWith e.url.pathname pp = true) :=
  claim2_adaptive_promotion_and_pruning exOptsMenu [] [] exWebMenu (fun _ => 0) 6 exSeed
    exPageMenu exMenuLink (by decide) (by decide) (by decide) (by decide) (by decide)
    (by decide) (by decide)

/-- Claim C3: at every wave boundary of every crawl, each visited URL is in
the found set, no URL ever has two fetch events, and each fetched URL is in
the visited set. -/
theorem claim3_visited_found_unique_fetch (opts : CrawlOptions)
    (exc inc : List (String → Bool)) (web : Url → Option Page) (clock : Nat → Nat)
    (fuel : Nat) (seed : Url) :
    (∀ u ∈ (listDomainUrlsState opts exc inc web clock fuel seed).visited,
        u ∈ (listDomainUrlsState opts exc inc web clock fuel seed).found) ∧
      ((listDomainUrlsState opts exc inc web clock fuel seed).fetchLog.map
        (fun e => e.url)).Nodup ∧
      (∀ e ∈ (listDomainUrlsState opts exc inc web clock fuel seed).fetchLog,
        e.url ∈ (listDomainUrlsState opts exc inc web clock fuel seed).visited) := by
  have h := crawlLoop_Inv (mkConfig opts exc inc seed) web clock fuel 0 (initState seed)
    (initState_Inv _ seed)
  obtain ⟨_, h2, h3, h4, _, _, _, _⟩ := h
  exact ⟨h4, h2, h3⟩

/-- Claim C4, as stated, is false: with filterMode none the crawl discovers
/b before /a, result.urls keeps that insertion order, but filteredUrls is
sorted by the final comparator, so the two lists differ in order. -/
theorem claim4_filterNone_counterexample :
    ¬ ((listDomainUrls exOptsNone [] [] exWebBA (fun _ => 0) 5 exSeed).filteredUrls =
      (listDomainUrls exOptsNone [] [] exWebBA (fun _ => 0) 5 exSeed).urls) := by
  decide

/-- Claim C4 amended: with filterMode none no filtering is applied, so
filteredUrls holds exactly the elements of urls, but sorted by first path
segment and then full URL rather than in discovery order. -/
theorem claim4_filterNone_amended (opts : CrawlOptions) (exc inc : List (String → Bool))
    (web : Url → Option Page) (clock : Nat → Nat) (fuel : Nat) (seed : Url)
    (hmode : opts.filterMode = Option.some FilterMode.none) :
    ((listDomainUrls opts exc inc web clock fuel seed).filteredUrls).Perm
        ((listDomainUrls opts exc inc web clock fuel seed).urls) ∧
      List.Sorted urlLeR (listDomainUrls opts exc inc web clock fuel seed).filteredUrls := by
  unfold listDomainUrls finalizeResult
  dsimp only
  have hm : (mkConfig opts exc inc seed).filterMode = FilterMode.none := by
    unfold mkConfig
    rw [hmode]
    rfl
  rw [if_neg (by rw [hm]; simp)]
  haveI : IsTotal Url urlLeR := ⟨urlLe_total⟩
  haveI : IsTrans Url urlLeR := ⟨urlLe_trans⟩
  exact ⟨List.perm_insertionSort urlLeR _, List.sorted_insertionSort urlLeR _⟩

/-- Witness for the amended claim C4 at the two-link scenario. -/
theorem claim4_filterNone_amended_witness :
    ((listDomainUrls exOptsNone [] [] exWebBA (fun _ => 0) 5 exSeed).filteredUrls).Perm
        ((listDomainUrls exOptsNone [] [] exWebBA (fun _ => 0) 5 exSeed).urls) ∧
      List.Sorted urlLeR
        (listDomainUrls exOptsNone [] [] exWebBA (fun _ => 0) 5 exSeed).filteredUrls :=
  claim4_filterNone_amended exOptsNone [] [] exWebBA (fun _ => 0) 5 exSeed rfl

/-- Claim C5: a frontier item whose fetch fails or times out contributes zero
links and changes nothing but the ghost fetch log; the rest of its wave is
still processed; and with the global deadline never exceeded the crawl's
timedOut flag stays false no matter how many page fetches fail. -/
theorem claim5_per_page_timeout_isolated (cfg : CrawlConfig) (web : Url → Option Page)
    (st : CrawlState) (d : Decided) (ds : List Decided)
    (hfail : web d.item.url = Option.none)
    (opts : CrawlOptions) (exc inc : List (String → Bool)) (clock : Nat → Nat) (fuel : Nat)
    (seed : Url) (hclock : ∀ k, ¬ (mkConfig opts exc inc seed).timeoutMs < clock k) :
    phase2Step cfg web st d = { st with fetchLog := st.fetchLog ++ [eventOf d] } ∧
      (d :: ds).foldl (phase2Step cfg web) st =
        ds.foldl (phase2Step cfg web) { st with fetchLog := st.fetchLog ++ [eventOf d] } ∧
      (listDomainUrls opts exc inc web clock fuel seed).timedOut = false := by
  have h1 : phase2Step cfg web st d = { st with fetchLog := st.fetchLog ++ [eventOf d] } := by
    unfold phase2Step
    dsimp only
    rw [hfail]
  refine ⟨h1, ?_, ?_⟩
  · rw [List.foldl_cons, h1]
  · unfold listDomainUrls finalizeResult listDomainUrlsState
    dsimp only
    rw [crawlLoop_timedOut_stable (mkConfig opts exc inc seed) web clock hclock fuel 0
      (initState seed)]
    rfl

/-- Witness for claim C5's theorem with an everywhere-failing web. -/
theorem claim5_witness :
    phase2Step (mkConfig exOptsNone [] [] exSeed) (fun _ => Option.none) (initState exSeed)
        exDecided =
      { initState exSeed with
          fetchLog := (initState exSeed).fetchLog ++ [eventOf exDecided] } ∧
      (exDecided :: []).foldl
          (phase2Step (mkConfig exOptsNone [] [] exSeed) (fun _ => Option.none))
          (initState exSeed) =
        ([] : List Decided).foldl
          (phase2Step (mkConfig exOptsNone [] [] exSeed) (fun _ => Option.none))
          { initState exSeed with
              fetchLog := (initState exSeed).fetchLog ++ [eventOf exDecided] } ∧
      (listDomainUrls exOptsNone [] [] (fun _ => Option.none) (fun _ => 0) 3
        exSeed).timedOut = false :=
  claim5_per_page_timeout_isolated (mkConfig exOptsNone [] [] exSeed) (fun _ => Option.none)
    (initState exSeed) exDecided [] rfl exOptsNone [] [] (fun _ => 0) 3 exSeed
    (by
      intro k
      show ¬ (mkConfig exOptsNone [] [] exSeed).timeoutMs < 0
      decide)

/-- Claim C10: every crawl result contains the seed URL among result.urls and
reports urlsFound at least 1, whatever the web, the clock and the options,
because the seed enters the found set at initialization and found only grows. -/
theorem claim10_seed_always_found (opts : CrawlOptions) (exc inc : List (String → Bool))
    (web : Url → Option Page) (clock : Nat → Nat) (fuel : Nat) (seed : Url) :
    seed ∈ (listDomainUrls opts exc inc web clock fuel seed).urls ∧
      1 ≤ (listDomainUrls opts exc inc web clock fuel seed).urlsFound := by
  have hmem : seed ∈ (listDomainUrlsState opts exc inc web clock fuel seed).found := by
    unfold listDomainUrlsState
    exact crawlLoop_found_mono (mkConfig opts exc inc seed) web clock fuel 0
      (initState seed) seed (by simp [initState])
  constructor
  · exact hmem
  · show 1 ≤ (listDomainUrlsState opts exc inc web clock fuel seed).found.length
    have h := List.length_pos.mpr (List.ne_nil_of_mem hmem)
    omega

end CartaMcp
